import Mathlib

/-!
Shallow embedding of the client-side computation kernels of the
geo-profit-analytics frontend (comparison ranking, cash-flow aggregation,
radar normalization, percentage formatting, dashboard score aggregation,
project selection, report filename generation), together with theorems
settling the specification claims about them.

Numeric values (JS numbers) are idealized as rationals; nullable JS fields
become `Option`; `Math.random`-driven metric synthesis becomes an explicit
generator parameter; the current time becomes an explicit parameter.
-/

namespace GeoProfit

/-! ## Data model (frontend/src/components/comparison/ProjectComparison.tsx, types) -/

/-- Financial slice of a per-project metric bundle. -/
structure Financial where
  npv : ℚ
  irr : ℚ
  roi : ℚ
deriving DecidableEq

/-- Geospatial slice of a per-project metric bundle. -/
structure Geospatial where
  location : ℚ
  accessibility : ℚ
deriving DecidableEq

/-- Sustainability slice of a per-project metric bundle. -/
structure Sustainability where
  score : ℚ
  carbonFootprint : ℚ
deriving DecidableEq

/-- Per-project metric bundle (`ComparisonData.metrics` entry). -/
structure Metrics where
  financial : Financial
  geospatial : Geospatial
  sustainability : Sustainability
  overall : ℚ
deriving DecidableEq

/-- The fields of a project that the comparison subsystem uses. -/
structure Project where
  id : ℕ
  name : String
deriving DecidableEq

/-- Comparison payload: projects with their index-aligned metric bundles. -/
structure ComparisonData where
  projects : List Project
  metrics : List Metrics
deriving DecidableEq

/-! ## Ranking (frontend/src/components/comparison/RankingTable.tsx) -/

/-- Sort criterion of the ranking table (`sortBy` state). -/
inductive SortBy
  | overall
  | npv
  | irr
  | sustainability
deriving DecidableEq

/-- Numeric field selected by the ranking comparator (`RankingTable.tsx`, the
switch inside the sort callback). -/
def sortKey : SortBy → Metrics → ℚ
  | SortBy.npv, m => m.financial.npv
  | SortBy.irr, m => m.financial.irr
  | SortBy.sustainability, m => m.sustainability.score
  | SortBy.overall, m => m.overall

/-- Stable descending insertion: an earlier element `x` passes over strictly
greater keys and settles before the first element whose key is not strictly
greater, which is the stable descending order guaranteed for
`Array.prototype.sort` with the comparator `(a, b) => key b - key a`. -/
def insertDesc (key : α → ℚ) (x : α) : List α → List α
  | [] => [x]
  | y :: ys => if key x < key y then y :: insertDesc key x ys else x :: y :: ys

/-- Stable descending sort modelling `Array.prototype.sort` (stable per the
ECMAScript specification) under a consistent descending comparator. -/
def sortDesc (key : α → ℚ) : List α → List α
  | [] => []
  | x :: xs => insertDesc key x (sortDesc key xs)

/-- `getSortedProjects` (`RankingTable.tsx` lines 15-37): pair each project
with the metrics entry at the same index (the source builds fresh objects via
spread, leaving the inputs untouched) and sort the pairs descending by the
selected field. -/
def getSortedProjects (c : SortBy) (projects : List Project)
    (metrics : List Metrics) : List (Project × Metrics) :=
  let projectsWithScores := projects.zip metrics
  sortDesc (fun pm => sortKey c pm.2) projectsWithScores

lemma insertDesc_perm (key : α → ℚ) (x : α) (l : List α) :
    (insertDesc key x l).Perm (x :: l) := by
  induction l with
  | nil => simp [insertDesc]
  | cons y ys ih =>
    rw [insertDesc]
    by_cases h : key x < key y
    · simp only [h, if_true]
      exact ((ih.cons y).trans (List.Perm.swap x y ys))
    · simp [h]

lemma sortDesc_perm (key : α → ℚ) (l : List α) : (sortDesc key l).Perm l := by
  induction l with
  | nil => simp [sortDesc]
  | cons x xs ih =>
    rw [sortDesc]
    exact (insertDesc_perm key x (sortDesc key xs)).trans (ih.cons x)

lemma mem_insertDesc (key : α → ℚ) (x : α) (l : List α) (z : α) :
    z ∈ insertDesc key x l ↔ z = x ∨ z ∈ l := by
  rw [(insertDesc_perm key x l).mem_iff, List.mem_cons]

lemma insertDesc_sorted (key : α → ℚ) (x : α) (l : List α)
    (h : l.Pairwise (fun a b => key b ≤ key a)) :
    (insertDesc key x l).Pairwise (fun a b => key b ≤ key a) := by
  induction l with
  | nil => simp [insertDesc]
  | cons y ys ih =>
    rw [List.pairwise_cons] at h
    rw [insertDesc]
    by_cases hc : key x < key y
    · simp only [hc, if_true]
      rw [List.pairwise_cons]
      refine ⟨?_, ih h.2⟩
      intro z hz
      rcases (mem_insertDesc key x ys z).mp hz with hz | hz
      · exact hz ▸ le_of_lt hc
      · exact h.1 z hz
    · rw [if_neg hc]
      push_neg at hc
      rw [List.pairwise_cons]
      refine ⟨?_, List.pairwise_cons.mpr h⟩
      intro z hz
      rcases List.mem_cons.mp hz with hz | hz
      · exact hz ▸ hc
      · exact le_trans (h.1 z hz) hc

lemma sortDesc_sorted (key : α → ℚ) (l : List α) :
    (sortDesc key l).Pairwise (fun a b => key b ≤ key a) := by
  induction l with
  | nil => simp [sortDesc]
  | cons x xs ih =>
    rw [sortDesc]
    exact insertDesc_sorted key x (sortDesc key xs) ih

lemma insertDesc_filter_key (key : α → ℚ) (x : α) (l : List α) (k : ℚ) :
    (insertDesc key x l).filter (fun a => decide (key a = k))
      = (if key x = k then [x] else []) ++ l.filter (fun a => decide (key a = k)) := by
  induction l with
  | nil =>
    by_cases hx : key x = k <;> simp [insertDesc, List.filter, hx]
  | cons y ys ih =>
    rw [insertDesc]
    by_cases hc : key x < key y
    · simp only [hc, if_true]
      by_cases hy : key y = k
      · have hx : ¬ key x = k := by
          intro hxk
          rw [hxk, hy] at hc
          exact lt_irrefl k hc
        simp [List.filter_cons, hy, hx, ih]
      · simp [List.filter_cons, hy, ih]
    · rw [if_neg hc]
      by_cases hx : key x = k <;> simp [List.filter_cons, hx]

lemma sortDesc_filter_key (key : α → ℚ) (l : List α) (k : ℚ) :
    (sortDesc key l).filter (fun a => decide (key a = k))
      = l.filter (fun a => decide (key a = k)) := by
  induction l with
  | nil => simp [sortDesc]
  | cons x xs ih =>
    rw [sortDesc, insertDesc_filter_key]
    by_cases hx : key x = k <;> simp [List.filter_cons, hx, ih]

/-! ## Cash-flow aggregation (frontend/src/components/projects/ProjectAnalysis.tsx) -/

/-- Result of `calculateTotals` (`ProjectAnalysis.tsx` lines 79-100). -/
structure TotalsResult where
  total_investment : ℚ
  total_revenue : ℚ
  cash_flows : Option (List ℚ)
deriving DecidableEq

/-- `calculateTotals`: total investment is the sum of the magnitudes of the
strictly negative cash flows, total revenue the sum of the strictly positive
ones; with no (or an empty) cash-flow array both totals are zero. -/
def calculateTotals (cash_flows : Option (List ℚ)) : TotalsResult :=
  match cash_flows with
  | some cfs =>
    if 0 < cfs.length then
      { total_investment :=
          (cfs.filter (fun flow => decide (flow < 0))).foldl (fun sum flow => sum + |flow|) 0
        total_revenue :=
          (cfs.filter (fun flow => decide (0 < flow))).foldl (fun sum flow => sum + flow) 0
        cash_flows := some cfs }
    else
      { total_investment := 0, total_revenue := 0, cash_flows := some cfs }
  | none => { total_investment := 0, total_revenue := 0, cash_flows := none }

/-- Cumulative balance at display row `i` (`ProjectAnalysis.tsx` line 260):
the full cash-flow array sliced from the start through index `i`, reduced
with `+` from 0.  The slice is always taken from the full array, not from the
12-row display slice. -/
def accumulated (cfs : List ℚ) (i : ℕ) : ℚ :=
  (cfs.take (i + 1)).foldl (fun sum f => sum + f) 0

/-- The rows of the cash-flow table (`ProjectAnalysis.tsx` lines 259-285):
only the first 12 periods are rendered, each as the pair (flow, cumulative),
with the cumulative computed from the full array. -/
def displayedTable (cfs : List ℚ) : List (ℚ × ℚ) :=
  ((cfs.take 12).enum).map (fun p => (p.2, accumulated cfs p.1))

/-- Cash flows of end-to-end scenario 2 of the specification. -/
def demoFlows : List ℚ := [-100000, 20000, 20000, 20000, 20000, 20000]

lemma foldl_add_eq (l : List ℚ) (a : ℚ) :
    l.foldl (fun sum f => sum + f) a = a + l.sum := by
  induction l generalizing a with
  | nil => simp
  | cons x xs ih => simp [List.foldl_cons, ih, add_assoc]

lemma foldl_add_abs_eq (l : List ℚ) (a : ℚ) :
    l.foldl (fun sum f => sum + |f|) a = a + (l.map (fun f => |f|)).sum := by
  induction l generalizing a with
  | nil => simp
  | cons x xs ih => simp [List.foldl_cons, ih, add_assoc]

lemma pos_sum_sub_neg_abs_sum (l : List ℚ) :
    (l.filter (fun flow => decide (0 < flow))).sum
      - ((l.filter (fun flow => decide (flow < 0))).map (fun f => |f|)).sum
      = l.sum := by
  induction l with
  | nil => simp
  | cons c cs ih =>
    rcases lt_trichotomy c 0 with hc | hc | hc
    · have h1 : ¬ (0 < c) := not_lt.mpr (le_of_lt hc)
      simp [List.filter_cons, hc, h1, abs_of_neg hc, List.sum_cons]
      linarith [ih]
    · subst hc
      simp [List.filter_cons, List.sum_cons]
      exact ih
    · have h1 : ¬ (c < 0) := not_lt.mpr (le_of_lt hc)
      simp [List.filter_cons, hc, h1, List.sum_cons]
      linarith [ih]

lemma calculateTotals_investment (cfs : List ℚ) :
    (calculateTotals (some cfs)).total_investment
      = ((cfs.filter (fun flow => decide (flow < 0))).map (fun f => |f|)).sum := by
  cases cfs with
  | nil => simp [calculateTotals]
  | cons c cs =>
    simp only [calculateTotals, List.length_cons, Nat.succ_pos, if_true]
    rw [foldl_add_abs_eq, zero_add]

lemma calculateTotals_revenue (cfs : List ℚ) :
    (calculateTotals (some cfs)).total_revenue
      = (cfs.filter (fun flow => decide (0 < flow))).sum := by
  cases cfs with
  | nil => simp [calculateTotals]
  | cons c cs =>
    simp only [calculateTotals, List.length_cons, Nat.succ_pos, if_true]
    rw [foldl_add_eq, zero_add]

/-- Claim C2: `calculateTotals` partitions the signed cash flows without
double counting or omission: the total investment is the sum of the absolute
values of the strictly negative entries, the total revenue is the sum of the
strictly positive entries, their signed difference recovers the sum of all
entries, and on the scenario input `[-100000, 20000, 20000, 20000, 20000,
20000]` the totals are 100000 and 100000. -/
theorem calculateTotals_partitions (cfs : List ℚ) :
    (calculateTotals (some cfs)).total_investment
        = ((cfs.filter (fun flow => decide (flow < 0))).map (fun f => |f|)).sum
    ∧ (calculateTotals (some cfs)).total_revenue
        = (cfs.filter (fun flow => decide (0 < flow))).sum
    ∧ (calculateTotals (some cfs)).total_revenue
        - (calculateTotals (some cfs)).total_investment = cfs.sum
    ∧ (calculateTotals (some demoFlows)).total_investment = 100000
    ∧ (calculateTotals (some demoFlows)).total_revenue = 100000 := by
  refine ⟨calculateTotals_investment cfs, calculateTotals_revenue cfs, ?_, ?_, ?_⟩
  · rw [calculateTotals_investment, calculateTotals_revenue]
    exact pos_sum_sub_neg_abs_sum cfs
  · rw [calculateTotals_investment]
    norm_num [demoFlows, List.filter_cons]
  · rw [calculateTotals_revenue]
    norm_num [demoFlows, List.filter_cons]

/-- Claim C1: for every comparison data set and every sort criterion, the
ranking is pairwise non-increasing on the selected numeric field (a total
order consistent with descending comparison, ties left adjacent), it is
stable (for every key value, the pairs carrying that key appear in input
order), and it is deterministic (re-running with the same criterion on the
same input yields the same order; the embedding is a pure function over the
untouched input lists, mirroring the source sorting a freshly mapped copy). -/
theorem getSortedProjects_ranking_order (c : SortBy) (ps : List Project)
    (ms : List Metrics) :
    (getSortedProjects c ps ms).Pairwise
        (fun a b => sortKey c b.2 ≤ sortKey c a.2)
    ∧ (∀ k : ℚ,
        (getSortedProjects c ps ms).filter (fun a => decide (sortKey c a.2 = k))
          = (ps.zip ms).filter (fun a => decide (sortKey c a.2 = k)))
    ∧ getSortedProjects c ps ms = getSortedProjects c ps ms := by
  refine ⟨?_, ?_, rfl⟩
  · exact sortDesc_sorted (fun pm => sortKey c pm.2) (ps.zip ms)
  · intro k
    exact sortDesc_filter_key (fun pm => sortKey c pm.2) (ps.zip ms) k

/-- Claim C9: for every comparison data set and criterion, the ranked output
is exactly a permutation of the index-aligned (project, metrics) pairs — no
pair is dropped, duplicated, or re-paired. -/
theorem getSortedProjects_permutation (c : SortBy) (ps : List Project)
    (ms : List Metrics) :
    (getSortedProjects c ps ms).Perm (ps.zip ms) := by
  show (sortDesc (fun pm : Project × Metrics => sortKey c pm.2) (ps.zip ms)).Perm (ps.zip ms)
  exact sortDesc_perm _ _

lemma foldl_add_eq_sum (l : List ℚ) : l.foldl (fun sum f => sum + f) 0 = l.sum := by
  rw [foldl_add_eq, zero_add]

/-- Claim C3: every displayed cumulative value is the sum of the cash flows
from period 0 through that row inclusive, computed over the full array: the
12-row display cap limits which rows appear, never how a shown cumulative is
computed, and the `accumulated` value itself is defined for every index from
the full array, independent of the cap. -/
theorem displayed_cumulative_is_full_sum (cfs : List ℚ) (i : ℕ)
    (hrow : i < 12) (hlen : i < cfs.length) :
    ((displayedTable cfs)[i]?).map Prod.snd = some ((cfs.take (i + 1)).sum)
    ∧ accumulated cfs i = (cfs.take (i + 1)).sum := by
  have hacc : accumulated cfs i = (cfs.take (i + 1)).sum := by
    rw [accumulated, foldl_add_eq_sum]
  refine ⟨?_, hacc⟩
  have hlt : i < (cfs.take 12).length := by
    rw [List.length_take]
    exact lt_min hrow hlen
  simp only [displayedTable, List.getElem?_map, List.getElem?_enum]
  rw [List.getElem?_eq_getElem hlt]
  simp [hacc]

/-- Witness for claim C3 at scenario 2: the cumulative shown at row index 5
of `[-100000, 20000, 20000, 20000, 20000, 20000]` is 0. -/
theorem displayed_cumulative_witness :
    ((displayedTable demoFlows)[5]?).map Prod.snd = some 0 := by
  have h := displayed_cumulative_is_full_sum demoFlows 5 (by norm_num)
    (by norm_num [demoFlows])
  rw [h.1]
  norm_num [demoFlows]

/-! ## Radar normalization (frontend/src/components/comparison/RadarComparison.tsx) -/

/-- The six radar axes (`metrics` array, `RadarComparison.tsx` lines 32-39). -/
inductive RadarKey
  | npv
  | irr
  | location
  | accessibility
  | sustainability
  | roi
deriving DecidableEq

/-- Fixed per-axis ceiling (`max` field of the `metrics` array). -/
def radarMax : RadarKey → ℚ
  | RadarKey.npv => 2000000
  | RadarKey.irr => 3 / 10
  | RadarKey.location => 10
  | RadarKey.accessibility => 10
  | RadarKey.sustainability => 10
  | RadarKey.roi => 100

/-- Raw metric selected for an axis (the switch at `RadarComparison.tsx`
lines 108-127). -/
def rawValue (m : Metrics) : RadarKey → ℚ
  | RadarKey.npv => m.financial.npv
  | RadarKey.irr => m.financial.irr
  | RadarKey.location => m.geospatial.location
  | RadarKey.accessibility => m.geospatial.accessibility
  | RadarKey.sustainability => m.sustainability.score
  | RadarKey.roi => m.financial.roi

/-- Normalized axis value (`RadarComparison.tsx` lines 110-129): raw value
divided by the axis ceiling, then clamped by
`value = Math.min(1, Math.max(0, value))`. -/
def axisValue (m : Metrics) (k : RadarKey) : ℚ :=
  min 1 (max 0 (rawValue m k / radarMax k))

lemma radarMax_pos (k : RadarKey) : 0 < radarMax k := by
  cases k <;> norm_num [radarMax]

/-- Claim C4: every radar axis value is the raw metric divided by its fixed
ceiling and clamped into [0,1]: the result always lies in [0,1], a raw value
at or above its ceiling normalizes to exactly 1, a negative raw value
normalizes to exactly 0, and an in-range raw value normalizes to the plain
ratio. -/
theorem axisValue_clamped (m : Metrics) (k : RadarKey) :
    (0 ≤ axisValue m k ∧ axisValue m k ≤ 1)
    ∧ (radarMax k ≤ rawValue m k → axisValue m k = 1)
    ∧ (rawValue m k < 0 → axisValue m k = 0)
    ∧ (0 ≤ rawValue m k → rawValue m k ≤ radarMax k →
        axisValue m k = rawValue m k / radarMax k) := by
  have hpos := radarMax_pos k
  refine ⟨⟨?_, ?_⟩, ?_, ?_, ?_⟩
  · exact le_min zero_le_one (le_max_left 0 _)
  · exact min_le_left 1 _
  · intro h
    have h1 : (1 : ℚ) ≤ rawValue m k / radarMax k := (one_le_div hpos).mpr h
    rw [axisValue, max_eq_right (le_trans zero_le_one h1), min_eq_left h1]
  · intro h
    have h1 : rawValue m k / radarMax k < 0 := div_neg_of_neg_of_pos h hpos
    rw [axisValue, max_eq_left (le_of_lt h1)]
    exact min_eq_right zero_le_one
  · intro h0 h1
    have hd0 : 0 ≤ rawValue m k / radarMax k := div_nonneg h0 (le_of_lt hpos)
    have hd1 : rawValue m k / radarMax k ≤ 1 := (div_le_one hpos).mpr h1
    rw [axisValue, max_eq_right hd0, min_eq_right hd1]

/-- Metric bundle used as a concrete witness input: an NPV of 5,000,000
against the 2,000,000 ceiling, and a negative ROI. -/
def demoMetrics : Metrics :=
  { financial := { npv := 5000000, irr := 1 / 4, roi := -5 }
    geospatial := { location := 8, accessibility := 7 }
    sustainability := { score := 9, carbonFootprint := 1200 }
    overall := 8 }

/-- Witness for claim C4: NPV = 5,000,000 normalizes to full radius 1, and
the negative ROI normalizes to 0. -/
theorem axisValue_clamped_witness :
    axisValue demoMetrics RadarKey.npv = 1
    ∧ axisValue demoMetrics RadarKey.roi = 0 := by
  constructor
  · exact (axisValue_clamped demoMetrics RadarKey.npv).2.1
      (by norm_num [radarMax, rawValue, demoMetrics])
  · exact (axisValue_clamped demoMetrics RadarKey.roi).2.2.1
      (by norm_num [rawValue, demoMetrics])

/-! ## Percentage formatter (frontend/src/components/projects/ProjectAnalysis.tsx lines 58-77) -/

/-- Idealized JS number: NaN, the two infinities, or a finite value. -/
inductive JSNum
  | nan
  | posInf
  | negInf
  | finite (q : ℚ)
deriving DecidableEq

/-- The runtime values `formatPercentage` can receive (it is typed `any`). -/
inductive JSValue
  | undef
  | null
  | str (s : String)
  | num (n : JSNum)
deriving DecidableEq

/-- Boolean test that the first list begins with the pattern. -/
def leadsWith : List Char → List Char → Bool
  | [], _ => true
  | _ :: _, [] => false
  | p :: ps, c :: cs => p == c && leadsWith ps cs

/-- Boolean substring occurrence on character lists. -/
def occursInL (pat : List Char) : List Char → Bool
  | [] => leadsWith pat []
  | c :: cs => leadsWith pat (c :: cs) || occursInL pat cs

/-- Model of `String.prototype.includes`: does `pat` occur in `s`. -/
def includesSub (s pat : String) : Bool :=
  occursInL pat.data s.data

/-- Model of `Number.prototype.toFixed(2)` on an idealized rational: round
to two decimals and print sign, integer part, a dot, and two fraction
digits. -/
def toFixed2 (q : ℚ) : String :=
  (if ⌊q * 100 + 1 / 2⌋ < 0 then "-" else "")
    ++ Nat.repr ((⌊q * 100 + 1 / 2⌋).natAbs / 100) ++ "."
    ++ (if (⌊q * 100 + 1 / 2⌋).natAbs % 100 < 10 then "0" else "")
    ++ Nat.repr ((⌊q * 100 + 1 / 2⌋).natAbs % 100)

/-- `formatPercentage` (`ProjectAnalysis.tsx` lines 58-77): `undefined` and
`null` become the placeholder, strings are screened for the corrupt token
`YayA` (the literal comparison with the string YayA% is subsumed but kept
from the source) and otherwise returned unchanged, finite numbers are scaled
by 100 and formatted with two decimals and a percent sign, and every other
value falls through to the placeholder. -/
def formatPercentage : JSValue → String
  | JSValue.undef => "N/A"
  | JSValue.null => "N/A"
  | JSValue.str s =>
    if includesSub s "YayA" || s == "YayA%" then "N/A" else s
  | JSValue.num n =>
    match n with
    | JSNum.finite q => toFixed2 (q * 100) ++ "%"
    | _ => "N/A"

/-- Counterexample to claim C5 as stated: the formatter is not total-proof
against the literal text NaN% — a string input that already reads NaN% does
not contain the corrupt token, so it is returned verbatim. -/
theorem formatPercentage_returns_nan_string :
    formatPercentage (JSValue.str "NaN%") = "NaN%" := by
  rfl

lemma dot_mem_toFixed2 (q : ℚ) : '.' ∈ (toFixed2 q).data := by
  unfold toFixed2
  simp only [String.data_append]
  refine List.mem_append.mpr (Or.inl ?_)
  refine List.mem_append.mpr (Or.inl ?_)
  refine List.mem_append.mpr (Or.inr ?_)
  decide

lemma toFixed2_append_percent_ne (q : ℚ) : toFixed2 q ++ "%" ≠ "NaN%" := by
  intro h
  have hd : '.' ∈ (toFixed2 q ++ "%").data := by
    rw [String.data_append]
    exact List.mem_append.mpr (Or.inl (dot_mem_toFixed2 q))
  rw [h] at hd
  exact absurd hd (by decide)

/-- Claim C5 (amended): the formatter never throws (it is total) and, for
every non-string input, never renders NaN%: undefined, null and non-finite
numbers all render as the placeholder, finite numbers render as the value
times 100 with two decimals and a percent sign; a string containing the
corrupt token renders as the placeholder, while any other string — including
one that already reads NaN% — is returned unchanged. -/
theorem formatPercentage_defensive (v : JSValue) :
    ((∀ s, v ≠ JSValue.str s) → formatPercentage v ≠ "NaN%")
    ∧ ((v = JSValue.undef ∨ v = JSValue.null ∨ v = JSValue.num JSNum.nan
        ∨ v = JSValue.num JSNum.posInf ∨ v = JSValue.num JSNum.negInf) →
        formatPercentage v = "N/A")
    ∧ (∀ q : ℚ, v = JSValue.num (JSNum.finite q) →
        formatPercentage v = toFixed2 (q * 100) ++ "%")
    ∧ (∀ s : String, v = JSValue.str s →
        ((includesSub s "YayA" || s == "YayA%") = true →
          formatPercentage v = "N/A")
        ∧ ((includesSub s "YayA" || s == "YayA%") = false →
          formatPercentage v = s)) := by
  refine ⟨?_, ?_, ?_, ?_⟩
  · intro hns
    cases v with
    | undef => decide
    | null => decide
    | str s => exact absurd rfl (hns s)
    | num n =>
      cases n with
      | nan => decide
      | posInf => decide
      | negInf => decide
      | finite q => exact toFixed2_append_percent_ne (q * 100)
  · intro h
    rcases h with h | h | h | h | h <;> subst h <;> rfl
  · intro q hq
    subst hq
    rfl
  · intro s hs
    subst hs
    constructor
    · intro hb
      simp [formatPercentage, hb]
    · intro hb
      simp [formatPercentage, hb]

/-- Witness for the amended claim C5: a NaN IRR renders as the placeholder. -/
theorem formatPercentage_defensive_witness :
    formatPercentage (JSValue.num JSNum.nan) = "N/A" :=
  (formatPercentage_defensive (JSValue.num JSNum.nan)).2.1
    (Or.inr (Or.inr (Or.inl rfl)))

/-! ## Integrated dashboard score (frontend/src/components/analysis/IntegratedAnalysisDashboard.tsx lines 136-158) -/

/-- Financial analysis slice used by the dashboard (only NPV matters for the
sub-score). -/
structure FinancialData where
  npv : ℚ
deriving DecidableEq

/-- Geospatial analysis slice used by the dashboard. -/
structure GeoData where
  location_score : ℚ
  accessibility_score : ℚ
deriving DecidableEq

/-- Sustainability analysis slice used by the dashboard. -/
structure SustData where
  overall_score : ℚ
deriving DecidableEq

/-- Per-analysis loading flags. -/
structure LoadingState where
  financial : Bool
  geospatial : Bool
  sustainability : Bool
deriving DecidableEq

/-- The `analysisData` state of the dashboard: each slice is null until its
call resolves. -/
structure DashboardData where
  financial : Option FinancialData
  geospatial : Option GeoData
  sustainability : Option SustData
  loading : LoadingState
deriving DecidableEq

/-- Financial sub-score: 8.5 when NPV is strictly positive, 4.0 otherwise. -/
def financialScore (f : FinancialData) : ℚ :=
  if 0 < f.npv then 8.5 else 4.0

/-- Geospatial sub-score: mean of location and accessibility scores. -/
def geoScore (g : GeoData) : ℚ :=
  (g.location_score + g.accessibility_score) / 2

/-- Scores pushed by the financial branch of `getOverallProjectScore`. -/
def finContribution (d : DashboardData) : List ℚ :=
  match d.financial with
  | some f => if d.loading.financial then [] else [financialScore f]
  | none => []

/-- Scores pushed by the geospatial branch of `getOverallProjectScore`. -/
def geoContribution (d : DashboardData) : List ℚ :=
  match d.geospatial with
  | some g => if d.loading.geospatial then [] else [geoScore g]
  | none => []

/-- Scores pushed by the sustainability branch of `getOverallProjectScore`. -/
def sustContribution (d : DashboardData) : List ℚ :=
  match d.sustainability with
  | some s => if d.loading.sustainability then [] else [s.overall_score]
  | none => []

/-- The sub-score list built by `getOverallProjectScore` in source order. -/
def subScores (d : DashboardData) : List ℚ :=
  finContribution d ++ geoContribution d ++ sustContribution d

/-- `getOverallProjectScore`: the mean of the available, non-loading
sub-scores, or 0 when there are none. -/
def getOverallProjectScore (d : DashboardData) : ℚ :=
  let scores := subScores d
  if 0 < scores.length then
    scores.foldl (fun sum score => sum + score) 0 / scores.length
  else 0

lemma subScores_bound_mem (d : DashboardData) (x : ℚ) (hx : x ∈ subScores d)
    (hf : ∀ f, d.financial = some f → 0 ≤ financialScore f ∧ financialScore f ≤ 10)
    (hg : ∀ g, d.geospatial = some g → 0 ≤ geoScore g ∧ geoScore g ≤ 10)
    (hs : ∀ s, d.sustainability = some s →
      0 ≤ s.overall_score ∧ s.overall_score ≤ 10) :
    0 ≤ x ∧ x ≤ 10 := by
  rcases List.mem_append.mp hx with hx | hx
  · rcases List.mem_append.mp hx with hx | hx
    · rw [finContribution] at hx
      cases hfin : d.financial with
      | none => rw [hfin] at hx; exact absurd hx (List.not_mem_nil x)
      | some f =>
        rw [hfin] at hx
        by_cases hl : d.loading.financial
        · simp [hl] at hx
        · simp [hl] at hx
          exact hx ▸ hf f hfin
    · rw [geoContribution] at hx
      cases hgeo : d.geospatial with
      | none => rw [hgeo] at hx; exact absurd hx (List.not_mem_nil x)
      | some g =>
        rw [hgeo] at hx
        by_cases hl : d.loading.geospatial
        · simp [hl] at hx
        · simp [hl] at hx
          exact hx ▸ hg g hgeo
  · rw [sustContribution] at hx
    cases hsus : d.sustainability with
    | none => rw [hsus] at hx; exact absurd hx (List.not_mem_nil x)
    | some s =>
      rw [hsus] at hx
      by_cases hl : d.loading.sustainability
      · simp [hl] at hx
      · simp [hl] at hx
        exact hx ▸ hs s hsus

lemma mean_in_unit_interval (l : List ℚ) (hne : l ≠ [])
    (hb : ∀ x ∈ l, 0 ≤ x ∧ x ≤ 10) :
    0 ≤ l.sum / l.length ∧ l.sum / l.length ≤ 10 := by
  have hlen : 0 < (l.length : ℚ) := by
    have := List.length_pos.mpr hne
    exact_mod_cast this
  constructor
  · apply div_nonneg _ (le_of_lt hlen)
    exact List.sum_nonneg (fun x hx => (hb x hx).1)
  · rw [div_le_iff₀ hlen]
    have h10 : l.sum ≤ l.length • (10 : ℚ) :=
      List.sum_le_card_nsmul l 10 (fun x hx => (hb x hx).2)
    rw [nsmul_eq_mul] at h10
    linarith

/-- Claim C6: the overall project score is the unweighted arithmetic mean of
the sub-scores that are available and not loading — 0 when none is available,
the plain sum-over-count mean otherwise; with all three analyses available it
is the mean of the 8.5/4.0 financial sub-score, the location/accessibility
mean, and the sustainability overall score; and whenever every contributing
sub-score lies in [0,10], so does the overall score. -/
theorem overall_score_aggregation (d : DashboardData) :
    (subScores d = [] → getOverallProjectScore d = 0)
    ∧ (subScores d ≠ [] →
        getOverallProjectScore d = (subScores d).sum / (subScores d).length)
    ∧ (∀ f g s, d.financial = some f → d.geospatial = some g →
        d.sustainability = some s → d.loading.financial = false →
        d.loading.geospatial = false → d.loading.sustainability = false →
        getOverallProjectScore d
          = (financialScore f + geoScore g + s.overall_score) / 3)
    ∧ ((∀ f, d.financial = some f →
          0 ≤ financialScore f ∧ financialScore f ≤ 10) →
       (∀ g, d.geospatial = some g → 0 ≤ geoScore g ∧ geoScore g ≤ 10) →
       (∀ s, d.sustainability = some s →
          0 ≤ s.overall_score ∧ s.overall_score ≤ 10) →
        0 ≤ getOverallProjectScore d ∧ getOverallProjectScore d ≤ 10) := by
  have hzero : subScores d = [] → getOverallProjectScore d = 0 := by
    intro h
    simp [getOverallProjectScore, h]
  have hmean : subScores d ≠ [] →
      getOverallProjectScore d = (subScores d).sum / (subScores d).length := by
    intro h
    have hlen : 0 < (subScores d).length := List.length_pos.mpr h
    simp [getOverallProjectScore, hlen, foldl_add_eq_sum]
  refine ⟨hzero, hmean, ?_, ?_⟩
  · intro f g s hf hg hs lf lg ls
    have hsub : subScores d = [financialScore f, geoScore g, s.overall_score] := by
      simp [subScores, finContribution, geoContribution, sustContribution,
        hf, hg, hs, lf, lg, ls]
    have h1 : subScores d ≠ [] := by simp [hsub]
    rw [hmean h1, hsub]
    norm_num
    ring
  · intro hf hg hs
    by_cases hempty : subScores d = []
    · rw [hzero hempty]
      norm_num
    · rw [hmean hempty]
      exact mean_in_unit_interval (subScores d) hempty
        (fun x hx => subScores_bound_mem d x hx hf hg hs)

/-- Concrete dashboard state with all three analyses resolved. -/
def demoDashboard : DashboardData :=
  { financial := some { npv := 50000 }
    geospatial := some { location_score := 7.5, accessibility_score := 8.2 }
    sustainability := some { overall_score := 8.2 }
    loading := { financial := false, geospatial := false, sustainability := false } }

/-- Witness for claim C6: on a fully resolved dashboard whose sub-scores lie
in [0,10], the overall score lies in [0,10]. -/
theorem overall_score_aggregation_witness :
    0 ≤ getOverallProjectScore demoDashboard
    ∧ getOverallProjectScore demoDashboard ≤ 10 := by
  refine (overall_score_aggregation demoDashboard).2.2.2 ?_ ?_ ?_
  · intro f hf
    simp only [demoDashboard, Option.some.injEq] at hf
    subst hf
    norm_num [financialScore]
  · intro g hg
    simp only [demoDashboard, Option.some.injEq] at hg
    subst hg
    norm_num [geoScore]
  · intro s hs
    simp only [demoDashboard, Option.some.injEq] at hs
    subst hs
    norm_num

/-! ## Project selection and comparison guard (frontend/src/components/comparison/ProjectComparison.tsx) -/

/-- `handleProjectSelect` (`ProjectComparison.tsx` lines 50-56): clicking an
already-selected project filters it out by id; clicking a new project appends
it only while fewer than 4 are selected; otherwise the selection is left
unchanged. -/
def handleProjectSelect (selected : List Project) (p : Project) : List Project :=
  if (selected.find? (fun q => q.id == p.id)).isSome then
    selected.filter (fun q => !(q.id == p.id))
  else if selected.length < 4 then
    selected ++ [p]
  else
    selected

/-- The comparison view state touched by `runComparison`. -/
structure ComparisonState where
  selectedProjects : List Project
  comparisonData : Option ComparisonData
deriving DecidableEq

/-- `runComparison` (`ProjectComparison.tsx` lines 58-93): with fewer than 2
selected projects it alerts and returns without touching state; otherwise it
stores a comparison payload pairing the selected projects with per-project
metric bundles produced by the (Math.random-backed) generator `gen`. -/
def runComparison (gen : Project → Metrics) (st : ComparisonState) :
    ComparisonState :=
  if st.selectedProjects.length < 2 then st
  else
    { st with
      comparisonData := some
        { projects := st.selectedProjects
          metrics := st.selectedProjects.map gen } }

lemma handleProjectSelect_length_le (s : List Project) (p : Project)
    (h : s.length ≤ 4) : (handleProjectSelect s p).length ≤ 4 := by
  rw [handleProjectSelect]
  by_cases h1 : (s.find? (fun q => q.id == p.id)).isSome
  · rw [if_pos h1]
    exact le_trans (List.length_filter_le _ s) h
  · rw [if_neg h1]
    by_cases h2 : s.length < 4
    · rw [if_pos h2]
      rw [List.length_append, List.length_singleton]
      omega
    · rw [if_neg h2]
      exact h

lemma foldl_handleProjectSelect_length (actions : List Project)
    (s : List Project) (h : s.length ≤ 4) :
    (actions.foldl handleProjectSelect s).length ≤ 4 := by
  induction actions generalizing s with
  | nil => exact h
  | cons a rest ih =>
    rw [List.foldl_cons]
    exact ih _ (handleProjectSelect_length_le s a h)

/-- Claim C7: the comparison subsystem admits only 2-4 projects: from an
empty selection, any sequence of select actions leaves at most 4 selected;
selecting a new project when 4 are already selected changes nothing; and
`runComparison` with fewer than 2 selected leaves the state unchanged. -/
theorem comparison_selection_bounds (actions : List Project)
    (gen : Project → Metrics) (st : ComparisonState) :
    (actions.foldl handleProjectSelect []).length ≤ 4
    ∧ (∀ s p, s.length = 4 → (∀ q ∈ s, q.id ≠ p.id) →
        handleProjectSelect s p = s)
    ∧ (st.selectedProjects.length < 2 → runComparison gen st = st) := by
  refine ⟨?_, ?_, ?_⟩
  · exact foldl_handleProjectSelect_length actions [] (by norm_num)
  · intro s p hlen hnot
    have hfind : s.find? (fun q => q.id == p.id) = none := by
      apply List.find?_eq_none.mpr
      intro q hq
      simpa using hnot q hq
    rw [handleProjectSelect, hfind]
    simp [hlen]
  · intro h
    rw [runComparison, if_pos h]

/-- Concrete project used in witnesses. -/
def proj (n : ℕ) : Project :=
  { id := n, name := "P" }

/-- Concrete comparison state with a single selected project. -/
def demoState : ComparisonState :=
  { selectedProjects := [proj 1], comparisonData := none }

/-- Witness for claim C7: five successive selections keep at most 4
projects, a fifth distinct project bounces off a full selection, and
`runComparison` on a 1-project selection is the identity. -/
theorem comparison_selection_bounds_witness :
    (([proj 1, proj 2, proj 3, proj 4, proj 5].foldl
        handleProjectSelect []).length ≤ 4)
    ∧ handleProjectSelect [proj 1, proj 2, proj 3, proj 4] (proj 5)
        = [proj 1, proj 2, proj 3, proj 4]
    ∧ runComparison (fun _ => demoMetrics) demoState = demoState := by
  have h := comparison_selection_bounds
    [proj 1, proj 2, proj 3, proj 4, proj 5] (fun _ => demoMetrics) demoState
  refine ⟨h.1, ?_, ?_⟩
  · exact h.2.1 [proj 1, proj 2, proj 3, proj 4] (proj 5) (by decide) (by decide)
  · exact h.2.2 (by decide)

lemma handleProjectSelect_pairwise (s : List Project) (p : Project)
    (h : s.Pairwise (fun a b => a.id ≠ b.id)) :
    (handleProjectSelect s p).Pairwise (fun a b => a.id ≠ b.id) := by
  rw [handleProjectSelect]
  by_cases h1 : (s.find? (fun q => q.id == p.id)).isSome
  · rw [if_pos h1]
    exact List.Pairwise.sublist (List.filter_sublist s) h
  · rw [if_neg h1]
    by_cases h2 : s.length < 4
    · rw [if_pos h2, List.pairwise_append]
      refine ⟨h, List.pairwise_singleton _ _, ?_⟩
      intro a ha b hb
      rw [List.mem_singleton] at hb
      subst hb
      have hnone := List.find?_eq_none.mp (Option.not_isSome_iff_eq_none.mp h1) a ha
      simpa using hnone
    · rw [if_neg h2]
      exact h

lemma foldl_handleProjectSelect_pairwise (actions : List Project)
    (s : List Project) (h : s.Pairwise (fun a b => a.id ≠ b.id)) :
    (actions.foldl handleProjectSelect s).Pairwise (fun a b => a.id ≠ b.id) := by
  induction actions generalizing s with
  | nil => exact h
  | cons a rest ih =>
    rw [List.foldl_cons]
    exact ih _ (handleProjectSelect_pairwise s a h)

/-- Claim C10: selection is a uniqueness-preserving toggle: selecting a
project whose id is already selected filters the selection by that id (so
deselection works at any size, including a full selection of 4), selecting a
fresh project with room appends it, and every selection reachable from the
empty one holds pairwise distinct project ids. -/
theorem selection_toggle_unique (actions : List Project) :
    (∀ s p, (∃ q ∈ s, q.id = p.id) →
        handleProjectSelect s p = s.filter (fun q => !(q.id == p.id)))
    ∧ (∀ s p, (∀ q ∈ s, q.id ≠ p.id) → s.length < 4 →
        handleProjectSelect s p = s ++ [p])
    ∧ (actions.foldl handleProjectSelect []).Pairwise
        (fun a b => a.id ≠ b.id) := by
  refine ⟨?_, ?_, ?_⟩
  · intro s p hex
    have hsome : (s.find? (fun q => q.id == p.id)).isSome := by
      rw [List.find?_isSome]
      obtain ⟨q, hq, he⟩ := hex
      exact ⟨q, hq, by simpa using he⟩
    rw [handleProjectSelect, if_pos hsome]
  · intro s p hnot hlen
    have hfind : s.find? (fun q => q.id == p.id) = none := by
      apply List.find?_eq_none.mpr
      intro q hq
      simpa using hnot q hq
    rw [handleProjectSelect, hfind]
    simp [hlen]
  · exact foldl_handleProjectSelect_pairwise actions [] List.Pairwise.nil

/-- Witness for claim C10: re-selecting project 2 out of a full selection
removes exactly it, and selecting a fresh project appends it. -/
theorem selection_toggle_unique_witness :
    handleProjectSelect [proj 1, proj 2, proj 3, proj 4] (proj 2)
        = [proj 1, proj 3, proj 4]
    ∧ handleProjectSelect [proj 1] (proj 2) = [proj 1, proj 2] := by
  have h := selection_toggle_unique []
  constructor
  · have hr := h.1 [proj 1, proj 2, proj 3, proj 4] (proj 2)
      ⟨proj 2, by decide, rfl⟩
    rw [hr]
    decide
  · have hr := h.2.1 [proj 1] (proj 2) (by decide) (by decide)
    rw [hr]
    rfl

/-! ## Report filename (frontend/src/components/reports/ReportGenerator.tsx line 232) -/

lemma length_dropWhile_le_self (p : Char → Bool) (l : List Char) :
    (l.dropWhile p).length ≤ l.length :=
  (List.dropWhile_suffix p).sublist.length_le

/-- Model of the regex replace in the source: each character run matched by
the whitespace class becomes a single underscore (the engine consumes a
maximal whitespace run per match because the quantifier is greedy and the
replacement is global). -/
def collapseWsL : List Char → List Char
  | [] => []
  | c :: cs =>
    if c.isWhitespace then
      '_' :: collapseWsL (cs.dropWhile Char.isWhitespace)
    else
      c :: collapseWsL cs
termination_by l => l.length
decreasing_by
  all_goals simp only [List.length_cons]
  · exact Nat.lt_succ_of_le (length_dropWhile_le_self _ _)
  · exact Nat.lt_succ_self _

/-- Spec-worded collapse, written as a one-character scanner: an underscore
is emitted exactly when a whitespace character starts a run (its predecessor
was not whitespace), so every maximal whitespace run yields one underscore. -/
def specCollapseAux (prevWs : Bool) : List Char → List Char
  | [] => []
  | c :: cs =>
    if c.isWhitespace then
      if prevWs then specCollapseAux true cs
      else '_' :: specCollapseAux true cs
    else
      c :: specCollapseAux false cs

/-- Spec-worded collapse of every maximal whitespace run to one underscore. -/
def specCollapse (l : List Char) : List Char :=
  specCollapseAux false l

/-- `generateHTMLReport`'s download name (`ReportGenerator.tsx` line 232):
the project name with whitespace runs collapsed to underscores, sandwiched
in the Reporte_ prefixed, epoch-suffixed .html pattern.  The clock read
`new Date().getTime()` is passed in as `nowMillis`. -/
def generateReportFilename (projectName : String) (nowMillis : ℕ) : String :=
  "Reporte_" ++ String.mk (collapseWsL projectName.data) ++ "_"
    ++ Nat.repr nowMillis ++ ".html"

lemma specCollapseAux_true (cs : List Char) :
    specCollapseAux true cs = specCollapseAux false (cs.dropWhile Char.isWhitespace) := by
  induction cs with
  | nil => rfl
  | cons c cs ih =>
    by_cases hc : c.isWhitespace
    · rw [specCollapseAux, if_pos hc, if_pos rfl, List.dropWhile_cons_of_pos hc]
      exact ih
    · rw [specCollapseAux, if_neg hc,
        List.dropWhile_cons_of_neg (by simpa using hc)]
      rw [specCollapseAux, if_neg hc]

lemma collapseWsL_eq_specCollapse_len (n : ℕ) :
    ∀ l : List Char, l.length ≤ n → collapseWsL l = specCollapse l := by
  induction n with
  | zero =>
    intro l h
    rw [List.length_eq_zero.mp (Nat.le_zero.mp h)]
    simp [collapseWsL, specCollapse, specCollapseAux]
  | succ n ih =>
    intro l h
    cases l with
    | nil => simp [collapseWsL, specCollapse, specCollapseAux]
    | cons c cs =>
      rw [List.length_cons, Nat.succ_le_succ_iff] at h
      by_cases hc : c.isWhitespace
      · rw [collapseWsL, if_pos hc, specCollapse, specCollapseAux,
          if_pos hc, if_neg (by simp)]
        rw [specCollapseAux_true]
        exact congrArg (fun t => '_' :: t)
          (ih _ (le_trans (length_dropWhile_le_self _ _) h))
      · rw [collapseWsL, if_neg hc, specCollapse, specCollapseAux, if_neg hc]
        exact congrArg (fun t => c :: t) (ih cs h)

lemma collapseWsL_eq_specCollapse (l : List Char) :
    collapseWsL l = specCollapse l :=
  collapseWsL_eq_specCollapse_len l.length l (le_refl _)

/-- Claim C8: the generated report is downloaded under
Reporte_(project name with every maximal whitespace run replaced by one
underscore)_(epoch milliseconds).html — shown against the independently
spec-worded run collapser, and on a concrete name with a two-space run. -/
theorem report_filename_pattern (name : String) (t : ℕ) :
    generateReportFilename name t
      = "Reporte_" ++ String.mk (specCollapse name.data) ++ "_"
          ++ Nat.repr t ++ ".html"
    ∧ generateReportFilename "Mi  Proyecto Alfa" 1699999999999
      = "Reporte_Mi_Proyecto_Alfa_1699999999999.html" := by
  constructor
  · rw [generateReportFilename, collapseWsL_eq_specCollapse]
  · rw [generateReportFilename, collapseWsL_eq_specCollapse]
    rfl
